import Mathlib

/-!
Verification of the parallel matrix multiplier in
`src/multithreading/src/main.rs`.

The two Rust functions `multiply` and `multiply_parallel` operate on
`Vec<Vec<u64>>`.  We embed them shallowly: a matrix is a `List (List Nat)`
whose entries are `u64` values (naturals below `2 ^ 64`), `u64` addition and
multiplication are modelled with an explicit `% 2 ^ 64`, and the two ways the
Rust code can panic — out-of-bounds `Vec` indexing and the explicit
`panic!("Incompatible multiplication")` — are modelled as `Except` errors, so
the embedded functions return `RustM (List (List Nat))`.
-/

namespace RustMatrix

/-- The two ways the Rust code can panic: an out-of-bounds `Vec` index, and
the explicit `panic!("Incompatible multiplication")` dimension check. -/
inductive RustError where
  | indexOutOfBounds : RustError
  | dimensionMismatch : RustError
deriving DecidableEq, Repr

/-- Result monad of the embedded Rust code: a value or a panic. -/
abbrev RustM (α : Type) : Type := Except RustError α

/-- The `u64` modulus `2 ^ 64`. -/
def u64Mod : Nat := 2 ^ 64

/-- Wrapping `u64` addition. -/
def uadd (x y : Nat) : Nat := (x + y) % u64Mod

/-- Wrapping `u64` multiplication. -/
def umul (x y : Nat) : Nat := (x * y) % u64Mod

/-- Rust `Vec` indexing `xs[i]`: the element when `i` is in bounds, an
index-out-of-bounds panic otherwise. -/
def idx {α : Type} (xs : List α) (i : Nat) : RustM α :=
  match xs[i]? with
  | some x => .ok x
  | none => .error RustError.indexOutOfBounds

/-- Embedding of the sequential Rust function `multiply`
(src/multithreading/src/main.rs lines 31-48).  The mutable `ans` matrix is
initialised to zeros and cell `(row, col)` is only ever updated by the inner
`k` loop, so each cell is the fold of its own updates starting from `0`. -/
def multiply (matrix_a matrix_b : List (List Nat)) : RustM (List (List Nat)) := do
  let row_lena := matrix_a.length
  let a0 ← idx matrix_a 0
  let col_lena := a0.length
  let row_lenb := matrix_b.length
  if col_lena ≠ row_lenb then
    Except.error RustError.dimensionMismatch
  else
    let b0 ← idx matrix_b 0
    let col_lenb := b0.length
    (List.range row_lena).mapM fun row =>
      (List.range col_lenb).mapM fun col =>
        (List.range col_lena).foldlM (fun acc k => do
          let aRow ← idx matrix_a row
          let av ← idx aRow k
          let bRow ← idx matrix_b k
          let bv ← idx bRow col
          pure (uadd acc (umul av bv))) 0

/-- Embedding of the closure run by each spawned thread in
`multiply_parallel` (src/multithreading/src/main.rs lines 63-70): it owns a
clone of row `row` of `matrix_a` and a clone of all of `matrix_b`, sizes its
private `result_row` buffer from `matrix_b_clone[0].len()`, and bounds the
inner accumulation by `matrix_a_row.len()`. -/
def workerRow (matrix_a_row : List Nat) (matrix_b_clone : List (List Nat)) :
    RustM (List Nat) := do
  let b0 ← idx matrix_b_clone 0
  (List.range b0.length).mapM fun col =>
    (List.range matrix_a_row.length).foldlM (fun acc k => do
      let av ← idx matrix_a_row k
      let bRow ← idx matrix_b_clone k
      let bv ← idx bRow col
      pure (uadd acc (umul av bv))) 0

/-- Embedding of the parallel Rust function `multiply_parallel`
(src/multithreading/src/main.rs lines 50-80).  Spawning clones
`matrix_a[row]` for each `row` (always in bounds); the join loop
`ans[i] = handle.join().unwrap()` surfaces the panic of the
smallest-index panicking worker, which the sequential `mapM` over the row
indices reproduces. -/
def multiply_parallel (matrix_a matrix_b : List (List Nat)) :
    RustM (List (List Nat)) := do
  let row_lena := matrix_a.length
  let a0 ← idx matrix_a 0
  let col_lena := a0.length
  let row_lenb := matrix_b.length
  if col_lena ≠ row_lenb then
    Except.error RustError.dimensionMismatch
  else
    let b0 ← idx matrix_b 0
    let _col_lenb := b0.length
    (List.range row_lena).mapM fun row => do
      let matrix_a_row ← idx matrix_a row
      workerRow matrix_a_row matrix_b

/-- The join/gather loop of `multiply_parallel`
(src/multithreading/src/main.rs lines 76-78) with the order in which worker
results are written made explicit: `order` lists the row indices in the order
their rows are stored into `ans`, and each write goes to position `i` of
`ans` — `ans[i] = handle.join().unwrap()` — never to a position derived from
completion time. -/
def joinGather (rows : List (List Nat)) (order : List Nat)
    (ans : List (List Nat)) : List (List Nat) :=
  order.foldl (fun acc i => acc.set i (rows.getD i [])) ans

/-- Entry `(i, j)` of a matrix, with out-of-range defaulting to `0`. -/
def entryAt (m : List (List Nat)) (i j : Nat) : Nat :=
  (m.getD i []).getD j 0

/-- Rectangularity: `m` has exactly `r` rows, each of length `c`. -/
def Rect (m : List (List Nat)) (r c : Nat) : Prop :=
  m.length = r ∧ ∀ row ∈ m, row.length = c

instance (m : List (List Nat)) (r c : Nat) : Decidable (Rect m r c) :=
  inferInstanceAs (Decidable (_ ∧ _))

/-- Every entry of `m` is a genuine `u64` value, i.e. below `2 ^ 64`. -/
def Entries64 (m : List (List Nat)) : Prop :=
  ∀ row ∈ m, ∀ x ∈ row, x < u64Mod

instance (m : List (List Nat)) : Decidable (Entries64 m) :=
  inferInstanceAs (Decidable (∀ row ∈ m, ∀ x ∈ row, x < u64Mod))

/-- The exact mathematical dot product of row `aRow` with column `j` of `b`,
over `c` terms, with no wraparound. -/
def specDot (aRow : List Nat) (b : List (List Nat)) (j c : Nat) : Nat :=
  ((List.range c).map (fun k => aRow.getD k 0 * (b.getD k []).getD j 0)).sum

/-- Entry `(i, j)` of the product as the Rust code computes it: the fold of
wrapping multiply-accumulate steps over `k < c`. -/
def mulEntry (a b : List (List Nat)) (i j c : Nat) : Nat :=
  (List.range c).foldl
    (fun acc k => uadd acc (umul (entryAt a i k) (entryAt b k j))) 0

/-- Pure tabulation of the product matrix: row `i`, column `j` holds
`mulEntry a b i j c`, for `i < r` and `j < n`. -/
def mulSpec (a b : List (List Nat)) (r c n : Nat) : List (List Nat) :=
  (List.range r).map fun i => (List.range n).map fun j => mulEntry a b i j c

/-- The `c × c` identity matrix. -/
def identityMatrix (n : Nat) : List (List Nat) :=
  (List.range n).map fun i => (List.range n).map fun j => if i = j then 1 else 0

theorem bind_ok_eq {α β : Type} (x : α) (f : α → RustM β) :
    (Except.ok x >>= f) = f x := rfl

theorem bind_error_eq {α β : Type} (e : RustError) (f : α → RustM β) :
    ((Except.error e : RustM α) >>= f) = Except.error e := rfl

theorem idx_eq_ok {α : Type} {xs : List α} {i : Nat} {x : α} :
    idx xs i = .ok x ↔ xs[i]? = some x := by
  unfold idx
  cases h : xs[i]? <;> simp

theorem idx_of_getD {α : Type} {xs : List α} {i : Nat} (h : i < xs.length)
    (d : α) : idx xs i = .ok (xs.getD i d) := by
  rw [idx_eq_ok, List.getD_eq_getElem?_getD, List.getElem?_eq_getElem h]
  rfl

theorem idx_nil {α : Type} (i : Nat) :
    idx ([] : List α) i = .error RustError.indexOutOfBounds := rfl

theorem idx_oob {α : Type} {xs : List α} {i : Nat} (h : xs.length ≤ i) :
    idx xs i = .error RustError.indexOutOfBounds := by
  unfold idx
  rw [List.getElem?_eq_none h]

theorem foldlM_ok {α β : Type} (l : List α) (F : β → α → RustM β)
    (f : β → α → β) (h : ∀ b : β, ∀ x ∈ l, F b x = .ok (f b x)) (init : β) :
    l.foldlM F init = .ok (l.foldl f init) := by
  induction l generalizing init with
  | nil => rfl
  | cons x xs ih =>
    rw [List.foldlM_cons, h init x (List.mem_cons_self x xs), bind_ok_eq,
      List.foldl_cons]
    exact ih (fun b y hy => h b y (List.mem_cons_of_mem x hy)) (f init x)

theorem mapM_ok {α β : Type} (l : List α) (F : α → RustM β) (f : α → β)
    (h : ∀ x ∈ l, F x = .ok (f x)) :
    l.mapM F = .ok (l.map f) := by
  induction l with
  | nil => rfl
  | cons x xs ih =>
    rw [List.mapM_cons, h x (List.mem_cons_self x xs), bind_ok_eq,
      ih (fun y hy => h y (List.mem_cons_of_mem x hy)), bind_ok_eq,
      List.map_cons]
    rfl

theorem mapM_ok_length {α β : Type} {l : List α} {F : α → RustM β}
    {ys : List β} (h : l.mapM F = .ok ys) : ys.length = l.length := by
  induction l generalizing ys with
  | nil =>
    simp only [List.mapM_nil] at h
    cases h
    rfl
  | cons x xs ih =>
    rw [List.mapM_cons] at h
    cases hx : F x with
    | error e => rw [hx, bind_error_eq] at h; cases h
    | ok y =>
      rw [hx, bind_ok_eq] at h
      cases hxs : xs.mapM F with
      | error e => rw [hxs, bind_error_eq] at h; cases h
      | ok ys' =>
        rw [hxs, bind_ok_eq] at h
        cases h
        simp [ih hxs]

theorem mapM_ok_mem {α β : Type} {l : List α} {F : α → RustM β}
    {ys : List β} (h : l.mapM F = .ok ys) :
    ∀ y ∈ ys, ∃ x ∈ l, F x = .ok y := by
  induction l generalizing ys with
  | nil =>
    simp only [List.mapM_nil] at h
    cases h
    intro y hy
    cases hy
  | cons x xs ih =>
    rw [List.mapM_cons] at h
    cases hx : F x with
    | error e => rw [hx, bind_error_eq] at h; cases h
    | ok y =>
      rw [hx, bind_ok_eq] at h
      cases hxs : xs.mapM F with
      | error e => rw [hxs, bind_error_eq] at h; cases h
      | ok ys' =>
        rw [hxs, bind_ok_eq] at h
        cases h
        intro z hz
        rcases List.mem_cons.mp hz with hz | hz
        · exact ⟨x, List.mem_cons_self x xs, hz ▸ hx⟩
        · rcases ih hxs z hz with ⟨w, hw, hFw⟩
          exact ⟨w, List.mem_cons_of_mem x hw, hFw⟩

theorem getD_mem {α : Type} {xs : List α} {i : Nat} (h : i < xs.length)
    (d : α) : xs.getD i d ∈ xs := by
  rw [List.getD_eq_getElem?_getD, List.getElem?_eq_getElem h]
  exact List.getElem_mem h

theorem multiply_eval (a b : List (List Nat)) (r c n : Nat)
    (ha : a.length = r) (har : ∀ row ∈ a, row.length = c)
    (hb : b.length = c) (hbr : ∀ row ∈ b, row.length = n)
    (hr : 0 < r) (hc : 0 < c) :
    multiply a b = .ok (mulSpec a b r c n) := by
  have ha0 : (0 : Nat) < a.length := ha ▸ hr
  have hb0 : (0 : Nat) < b.length := hb ▸ hc
  have hc0 : (a.getD 0 []).length = c := har _ (getD_mem ha0 [])
  have hn0 : (b.getD 0 []).length = n := hbr _ (getD_mem hb0 [])
  simp only [multiply, idx_of_getD ha0 ([] : List Nat),
    idx_of_getD hb0 ([] : List Nat), bind_ok_eq, hc0, hn0, hb, ha, ne_eq,
    not_true_eq_false, if_false, mulSpec]
  apply mapM_ok
  intro row hrow
  have hrowlt : row < r := List.mem_range.mp hrow
  apply mapM_ok
  intro col hcol
  have hcollt : col < n := List.mem_range.mp hcol
  apply foldlM_ok
  intro acc k hk
  have hklt : k < c := List.mem_range.mp hk
  have hrowa : row < a.length := ha ▸ hrowlt
  have hkb : k < b.length := hb ▸ hklt
  have haRow : (a.getD row []).length = c := har _ (getD_mem hrowa [])
  have hbRow : (b.getD k []).length = n := hbr _ (getD_mem hkb [])
  rw [idx_of_getD hrowa ([] : List Nat), bind_ok_eq,
    idx_of_getD (haRow ▸ hklt) (0 : Nat), bind_ok_eq,
    idx_of_getD hkb ([] : List Nat), bind_ok_eq,
    idx_of_getD (hbRow ▸ hcollt) (0 : Nat), bind_ok_eq]
  rfl

theorem workerRow_eval (aRow : List Nat) (b : List (List Nat)) (c n : Nat)
    (haRow : aRow.length = c) (hb : b.length = c)
    (hbr : ∀ row ∈ b, row.length = n) (hc : 0 < c) :
    workerRow aRow b = .ok ((List.range n).map fun col =>
      (List.range c).foldl
        (fun acc k => uadd acc (umul (aRow.getD k 0) (entryAt b k col))) 0) := by
  have hb0 : (0 : Nat) < b.length := hb ▸ hc
  have hn0 : (b.getD 0 []).length = n := hbr _ (getD_mem hb0 [])
  simp only [workerRow, idx_of_getD hb0 ([] : List Nat), bind_ok_eq, hn0, haRow]
  apply mapM_ok
  intro col hcol
  have hcollt : col < n := List.mem_range.mp hcol
  apply foldlM_ok
  intro acc k hk
  have hklt : k < c := List.mem_range.mp hk
  have hkb : k < b.length := hb ▸ hklt
  have hbRow : (b.getD k []).length = n := hbr _ (getD_mem hkb [])
  rw [idx_of_getD (haRow ▸ hklt) (0 : Nat), bind_ok_eq,
    idx_of_getD hkb ([] : List Nat), bind_ok_eq,
    idx_of_getD (hbRow ▸ hcollt) (0 : Nat), bind_ok_eq]
  rfl

theorem multiply_parallel_eval (a b : List (List Nat)) (r c n : Nat)
    (ha : a.length = r) (har : ∀ row ∈ a, row.length = c)
    (hb : b.length = c) (hbr : ∀ row ∈ b, row.length = n)
    (hr : 0 < r) (hc : 0 < c) :
    multiply_parallel a b = .ok (mulSpec a b r c n) := by
  have ha0 : (0 : Nat) < a.length := ha ▸ hr
  have hb0 : (0 : Nat) < b.length := hb ▸ hc
  have hc0 : (a.getD 0 []).length = c := har _ (getD_mem ha0 [])
  simp only [multiply_parallel, idx_of_getD ha0 ([] : List Nat),
    idx_of_getD hb0 ([] : List Nat), bind_ok_eq, hc0, hb, ha, ne_eq,
    not_true_eq_false, if_false, mulSpec]
  apply mapM_ok
  intro row hrow
  have hrowlt : row < r := List.mem_range.mp hrow
  have hrowa : row < a.length := ha ▸ hrowlt
  have haRow : (a.getD row []).length = c := har _ (getD_mem hrowa [])
  rw [idx_of_getD hrowa ([] : List Nat), bind_ok_eq,
    workerRow_eval (a.getD row []) b c n haRow hb hbr hc]
  rfl

theorem u64Mod_pos : 0 < u64Mod := by decide

theorem foldl_muladd (f g : Nat → Nat) (c : Nat) : ∀ s : Nat,
    (List.range c).foldl (fun acc k => uadd acc (umul (f k) (g k))) (s % u64Mod)
      = (s + ((List.range c).map (fun k => f k * g k)).sum) % u64Mod := by
  induction c with
  | zero => intro s; simp
  | succ m ih =>
    intro s
    rw [List.range_succ, List.foldl_append, List.map_append, List.sum_append,
      ih s]
    simp only [List.foldl_cons, List.foldl_nil, List.map_cons, List.map_nil,
      List.sum_cons, List.sum_nil]
    unfold uadd umul
    rw [Nat.mod_add_mod, Nat.add_mod_mod, Nat.add_zero, Nat.add_assoc]

theorem mulEntry_eq_mod (a b : List (List Nat)) (i j c : Nat) :
    mulEntry a b i j c = specDot (a.getD i []) b j c % u64Mod := by
  have h := foldl_muladd (fun k => entryAt a i k) (fun k => entryAt b k j) c 0
  rw [Nat.zero_mod] at h
  simpa [mulEntry, specDot, entryAt] using h

theorem mulEntry_lt (a b : List (List Nat)) (i j c : Nat) :
    mulEntry a b i j c < u64Mod := by
  rw [mulEntry_eq_mod]
  exact Nat.mod_lt _ u64Mod_pos

theorem getD_map_range {α : Type} (f : Nat → α) {i n : Nat} (h : i < n)
    (d : α) : ((List.range n).map f).getD i d = f i := by
  rw [List.getD_eq_getElem?_getD, List.getElem?_map, List.getElem?_range h]
  rfl

theorem mulSpec_length (a b : List (List Nat)) (r c n : Nat) :
    (mulSpec a b r c n).length = r := by
  simp [mulSpec]

theorem mulSpec_row (a b : List (List Nat)) {r : Nat} (c n : Nat) {i : Nat}
    (hi : i < r) :
    (mulSpec a b r c n).getD i [] =
      (List.range n).map fun j => mulEntry a b i j c := by
  unfold mulSpec
  exact getD_map_range _ hi []

theorem mulSpec_entry (a b : List (List Nat)) {r c n i j : Nat}
    (hi : i < r) (hj : j < n) :
    entryAt (mulSpec a b r c n) i j = mulEntry a b i j c := by
  unfold entryAt
  rw [mulSpec_row a b c n hi, getD_map_range _ hj 0]

theorem mulSpec_rows (a b : List (List Nat)) (r c n : Nat) :
    ∀ row ∈ mulSpec a b r c n, row.length = n := by
  intro row hrow
  rcases List.mem_map.mp hrow with ⟨i, _, hrow⟩
  rw [← hrow]
  simp

theorem multiply_mismatch (a b : List (List Nat)) (c : Nat)
    (ha0 : 0 < a.length) (hc0 : (a.getD 0 []).length = c)
    (hne : c ≠ b.length) :
    multiply a b = .error RustError.dimensionMismatch := by
  simp only [multiply, idx_of_getD ha0 ([] : List Nat), bind_ok_eq, hc0]
  rw [if_pos hne]

theorem multiply_parallel_mismatch (a b : List (List Nat)) (c : Nat)
    (ha0 : 0 < a.length) (hc0 : (a.getD 0 []).length = c)
    (hne : c ≠ b.length) :
    multiply_parallel a b = .error RustError.dimensionMismatch := by
  simp only [multiply_parallel, idx_of_getD ha0 ([] : List Nat), bind_ok_eq,
    hc0]
  rw [if_pos hne]

/-- C1: for every pair of compatible non-empty rectangular matrices `a`
(`r × c`) and `b` (`c × n`), `multiply` succeeds and each element `(i, j)` of
the result is the dot product `sum over k of a[i][k] * b[k][j]`, computed in
wrapping `u64` arithmetic, i.e. reduced modulo `2 ^ 64`. -/
theorem mul_entry_formula (a b : List (List Nat)) (r c n : Nat)
    (ha : Rect a r c) (hb : Rect b c n) (hr : 0 < r) (hc : 0 < c) :
    ∃ m, multiply a b = .ok m ∧ ∀ i < r, ∀ j < n,
      entryAt m i j = specDot (a.getD i []) b j c % u64Mod := by
  refine ⟨mulSpec a b r c n,
    multiply_eval a b r c n ha.1 ha.2 hb.1 hb.2 hr hc, ?_⟩
  intro i hi j hj
  rw [mulSpec_entry a b hi hj, mulEntry_eq_mod]

theorem mul_entry_formula_witness :
    Rect [[0, 1], [2, 3]] 2 2 ∧ Rect [[0, 2], [4, 6]] 2 2 ∧
    (∃ m, multiply [[0, 1], [2, 3]] [[0, 2], [4, 6]] = .ok m ∧ ∀ i < 2, ∀ j < 2,
      entryAt m i j =
        specDot ([[0, 1], [2, 3]].getD i []) [[0, 2], [4, 6]] j 2 % u64Mod) :=
  ⟨by decide, by decide,
    mul_entry_formula [[0, 1], [2, 3]] [[0, 2], [4, 6]] 2 2 2
      (by decide) (by decide) (by decide) (by decide)⟩

/-- C2: for every pair of compatible non-empty rectangular matrices, the
parallel implementation returns exactly the same result as the sequential
one. -/
theorem parallel_refines_sequential (a b : List (List Nat)) (r c n : Nat)
    (ha : Rect a r c) (hb : Rect b c n) (hr : 0 < r) (hc : 0 < c) :
    multiply_parallel a b = multiply a b := by
  rw [multiply_eval a b r c n ha.1 ha.2 hb.1 hb.2 hr hc,
    multiply_parallel_eval a b r c n ha.1 ha.2 hb.1 hb.2 hr hc]

theorem parallel_refines_sequential_witness :
    Rect [[0, 1], [2, 3]] 2 2 ∧ Rect [[0, 2], [4, 6]] 2 2 ∧
    multiply_parallel [[0, 1], [2, 3]] [[0, 2], [4, 6]] =
      multiply [[0, 1], [2, 3]] [[0, 2], [4, 6]] :=
  ⟨by decide, by decide,
    parallel_refines_sequential [[0, 1], [2, 3]] [[0, 2], [4, 6]] 2 2 2
      (by decide) (by decide) (by decide) (by decide)⟩

/-- C4: for compatible non-empty rectangular `a` (`r × c`) and `b` (`c × n`),
the result of `multiply` (and of `multiply_parallel`) has exactly `r` rows,
each of length exactly `n`. -/
theorem mul_shape (a b : List (List Nat)) (r c n : Nat)
    (ha : Rect a r c) (hb : Rect b c n) (hr : 0 < r) (hc : 0 < c) :
    ∃ m, multiply a b = .ok m ∧ multiply_parallel a b = .ok m ∧
      m.length = r ∧ ∀ row ∈ m, row.length = n :=
  ⟨mulSpec a b r c n,
    multiply_eval a b r c n ha.1 ha.2 hb.1 hb.2 hr hc,
    multiply_parallel_eval a b r c n ha.1 ha.2 hb.1 hb.2 hr hc,
    mulSpec_length a b r c n,
    mulSpec_rows a b r c n⟩

theorem mul_shape_witness :
    Rect [[1, 2, 3], [4, 5, 6]] 2 3 ∧ Rect [[1], [2], [3]] 3 1 ∧
    (∃ m, multiply [[1, 2, 3], [4, 5, 6]] [[1], [2], [3]] = .ok m ∧
      multiply_parallel [[1, 2, 3], [4, 5, 6]] [[1], [2], [3]] = .ok m ∧
      m.length = 2 ∧ ∀ row ∈ m, row.length = 1) :=
  ⟨by decide, by decide,
    mul_shape [[1, 2, 3], [4, 5, 6]] [[1], [2], [3]] 2 3 1
      (by decide) (by decide) (by decide) (by decide)⟩

/-- C5: on compatible non-empty rectangular inputs both functions return a
result with no error: every entry is the exact dot product reduced modulo
`2 ^ 64` (silent wraparound), and in particular every entry is a valid `u64`
value below `2 ^ 64`. -/
theorem wraparound_arith (a b : List (List Nat)) (r c n : Nat)
    (ha : Rect a r c) (hb : Rect b c n) (hr : 0 < r) (hc : 0 < c) :
    ∃ m, multiply a b = .ok m ∧ multiply_parallel a b = .ok m ∧
      ∀ i < r, ∀ j < n,
        entryAt m i j = specDot (a.getD i []) b j c % u64Mod ∧
        entryAt m i j < u64Mod := by
  refine ⟨mulSpec a b r c n,
    multiply_eval a b r c n ha.1 ha.2 hb.1 hb.2 hr hc,
    multiply_parallel_eval a b r c n ha.1 ha.2 hb.1 hb.2 hr hc, ?_⟩
  intro i hi j hj
  rw [mulSpec_entry a b hi hj, mulEntry_eq_mod]
  exact ⟨rfl, Nat.mod_lt _ u64Mod_pos⟩

theorem wraparound_arith_witness :
    Rect [[2 ^ 63, 2 ^ 63]] 1 2 ∧ Rect [[1], [1]] 2 1 ∧
    specDot ([[2 ^ 63, 2 ^ 63]].getD 0 []) [[1], [1]] 0 2 = 2 ^ 64 ∧
    (∃ m, multiply [[2 ^ 63, 2 ^ 63]] [[1], [1]] = .ok m ∧
      multiply_parallel [[2 ^ 63, 2 ^ 63]] [[1], [1]] = .ok m ∧
      ∀ i < 1, ∀ j < 1,
        entryAt m i j =
          specDot ([[2 ^ 63, 2 ^ 63]].getD i []) [[1], [1]] j 2 % u64Mod ∧
        entryAt m i j < u64Mod) :=
  ⟨by decide, by decide, by decide,
    wraparound_arith [[2 ^ 63, 2 ^ 63]] [[1], [1]] 1 2 1
      (by decide) (by decide) (by decide) (by decide)⟩

/-- C8: on the concrete inputs `A = [[0,1],[2,3]]` and `B = [[0,2],[4,6]]`,
both the sequential and the parallel function return exactly
`[[4,6],[12,22]]`. -/
theorem concrete_example :
    multiply [[0, 1], [2, 3]] [[0, 2], [4, 6]] = .ok [[4, 6], [12, 22]] ∧
    multiply_parallel [[0, 1], [2, 3]] [[0, 2], [4, 6]] =
      .ok [[4, 6], [12, 22]] := by
  constructor <;> rfl

/-- C3: for non-empty rectangular inputs, disagreeing inner dimensions make
both `multiply` and `multiply_parallel` fail with the dimension-mismatch
panic and never produce a result matrix, while agreeing inner dimensions
produce a computed result and never the dimension error. -/
theorem dimension_check (a b : List (List Nat)) (r c r' c' : Nat)
    (ha : Rect a r c) (hb : Rect b r' c') (hr : 0 < r) (hr' : 0 < r') :
    (c ≠ r' → multiply a b = .error RustError.dimensionMismatch ∧
      multiply_parallel a b = .error RustError.dimensionMismatch) ∧
    (c = r' → ∃ m, multiply a b = .ok m ∧ multiply_parallel a b = .ok m) := by
  have ha0 : (0 : Nat) < a.length := ha.1 ▸ hr
  have hc0 : (a.getD 0 []).length = c := ha.2 _ (getD_mem ha0 [])
  constructor
  · intro hne
    have hne' : c ≠ b.length := hb.1 ▸ hne
    exact ⟨multiply_mismatch a b c ha0 hc0 hne',
      multiply_parallel_mismatch a b c ha0 hc0 hne'⟩
  · intro heq
    have hbc : b.length = c := heq ▸ hb.1
    have hc : 0 < c := heq ▸ hr'
    exact ⟨mulSpec a b r c c',
      multiply_eval a b r c c' ha.1 ha.2 hbc hb.2 hr hc,
      multiply_parallel_eval a b r c c' ha.1 ha.2 hbc hb.2 hr hc⟩

theorem dimension_check_witness :
    Rect [[1, 2]] 1 2 ∧ Rect [[7]] 1 1 ∧ (2 : Nat) ≠ 1 ∧
    multiply [[1, 2]] [[7]] = .error RustError.dimensionMismatch ∧
    multiply_parallel [[1, 2]] [[7]] = .error RustError.dimensionMismatch :=
  ⟨by decide, by decide, by decide,
    (dimension_check [[1, 2]] [[7]] 1 2 1 1
      (by decide) (by decide) (by decide) (by decide)).1 (by decide)⟩

/-- C9: for non-empty rectangular inputs the header indexings `a[0]` and
`b[0]` are in bounds and the only possible panic of either function is the
dimension mismatch; for an empty `a` both functions fail on the `a[0]`
access itself with an index-out-of-bounds panic (never a result, never the
dimension error, for any `b`); and for a non-empty `a` with an empty `b`
the dimension check fires before `b[0]` is ever indexed, so the failure is
the dimension mismatch rather than an out-of-bounds panic. -/
theorem empty_and_check_order :
    (∀ a b : List (List Nat), ∀ r c r' c' : Nat, Rect a r c → Rect b r' c' →
      0 < r → 0 < r' → ∀ e : RustError,
      multiply a b = .error e ∨ multiply_parallel a b = .error e →
      e = RustError.dimensionMismatch) ∧
    (∀ b : List (List Nat),
      multiply [] b = .error RustError.indexOutOfBounds ∧
      multiply_parallel [] b = .error RustError.indexOutOfBounds) ∧
    multiply [[0]] [] = .error RustError.dimensionMismatch ∧
    multiply_parallel [[0]] [] = .error RustError.dimensionMismatch := by
  refine ⟨?_, ?_, by rfl, by rfl⟩
  · intro a b r c r' c' ha hb hr hr' e he
    by_cases heq : c = r'
    · exfalso
      have hbc : b.length = c := heq ▸ hb.1
      have hc : 0 < c := heq ▸ hr'
      rcases he with he | he
      · rw [multiply_eval a b r c c' ha.1 ha.2 hbc hb.2 hr hc] at he
        cases he
      · rw [multiply_parallel_eval a b r c c' ha.1 ha.2 hbc hb.2 hr hc] at he
        cases he
    · have ha0 : (0 : Nat) < a.length := ha.1 ▸ hr
      have hc0 : (a.getD 0 []).length = c := ha.2 _ (getD_mem ha0 [])
      have hne' : c ≠ b.length := hb.1 ▸ heq
      rcases he with he | he
      · rw [multiply_mismatch a b c ha0 hc0 hne'] at he
        exact (Except.error.inj he).symm
      · rw [multiply_parallel_mismatch a b c ha0 hc0 hne'] at he
        exact (Except.error.inj he).symm
  · intro b
    constructor
    · simp only [multiply, idx_nil, bind_error_eq]
    · simp only [multiply_parallel, idx_nil, bind_error_eq]

theorem empty_and_check_order_witness :
    Rect [[3, 4]] 1 2 ∧ Rect [[9]] 1 1 ∧
    multiply [[3, 4]] [[9]] = .error RustError.dimensionMismatch ∧
    RustError.dimensionMismatch = RustError.dimensionMismatch :=
  ⟨by decide, by decide, by rfl,
    empty_and_check_order.1 [[3, 4]] [[9]] 1 2 1 1 (by decide) (by decide)
      (by decide) (by decide) RustError.dimensionMismatch (Or.inl (by rfl))⟩

/-- C10: whenever `multiply` or `multiply_parallel` returns a result matrix
— with no rectangularity assumption on the inputs at all — every row of
that result has the length of `b`'s first row, because both the sequential
result buffer and each worker's row buffer are sized from `b[0]` alone. -/
theorem rows_sized_from_b_head (a b m : List (List Nat)) :
    (multiply a b = .ok m →
      ∀ row ∈ m, row.length = (b.getD 0 []).length) ∧
    (multiply_parallel a b = .ok m →
      ∀ row ∈ m, row.length = (b.getD 0 []).length) := by
  constructor
  · intro h
    rw [multiply] at h
    cases h0 : idx a 0 with
    | error e => rw [h0, bind_error_eq] at h; cases h
    | ok a0 =>
      rw [h0, bind_ok_eq] at h
      by_cases hcond : a0.length ≠ b.length
      · rw [if_pos hcond] at h; cases h
      · rw [if_neg hcond] at h
        cases hb0 : idx b 0 with
        | error e => rw [hb0, bind_error_eq] at h; cases h
        | ok b0 =>
          have hb0' : b.getD 0 [] = b0 := by
            rw [List.getD_eq_getElem?_getD, idx_eq_ok.mp hb0]
            rfl
          rw [hb0, bind_ok_eq] at h
          intro row hrow
          rcases mapM_ok_mem h row hrow with ⟨i, _, hFi⟩
          rw [mapM_ok_length hFi, List.length_range, hb0']
  · intro h
    rw [multiply_parallel] at h
    cases h0 : idx a 0 with
    | error e => rw [h0, bind_error_eq] at h; cases h
    | ok a0 =>
      rw [h0, bind_ok_eq] at h
      by_cases hcond : a0.length ≠ b.length
      · rw [if_pos hcond] at h; cases h
      · rw [if_neg hcond] at h
        cases hb0 : idx b 0 with
        | error e => rw [hb0, bind_error_eq] at h; cases h
        | ok b0 =>
          have hb0' : b.getD 0 [] = b0 := by
            rw [List.getD_eq_getElem?_getD, idx_eq_ok.mp hb0]
            rfl
          rw [hb0, bind_ok_eq] at h
          intro row hrow
          rcases mapM_ok_mem h row hrow with ⟨i, _, hFi⟩
          cases hai : idx a i with
          | error e => rw [hai, bind_error_eq] at hFi; cases hFi
          | ok aRow =>
            simp only [hai, bind_ok_eq, workerRow, hb0] at hFi
            rw [mapM_ok_length hFi, List.length_range, hb0']

theorem rows_sized_from_b_head_witness :
    multiply [[1, 1]] [[1, 2], [3, 4, 5]] = .ok [[4, 6]] ∧
    multiply_parallel [[1, 1]] [[1, 2], [3, 4, 5]] = .ok [[4, 6]] ∧
    (∀ row ∈ ([[4, 6]] : List (List Nat)),
      row.length = (([[1, 2], [3, 4, 5]] : List (List Nat)).getD 0 []).length) :=
  ⟨by rfl, by rfl,
    (rows_sized_from_b_head [[1, 1]] [[1, 2], [3, 4, 5]] [[4, 6]]).1 (by rfl)⟩

theorem joinGather_getElem?_not_mem {rows : List (List Nat)}
    {order : List Nat} {i : Nat} (h : i ∉ order) :
    ∀ ans : List (List Nat), (joinGather rows order ans)[i]? = ans[i]? := by
  induction order with
  | nil => intro ans; rfl
  | cons k l ih =>
    intro ans
    have hik : i ≠ k := fun he => h (he ▸ List.mem_cons_self k l)
    have hil : i ∉ l := fun he => h (List.mem_cons_of_mem k he)
    show (joinGather rows l (ans.set k (rows.getD k [])))[i]? = ans[i]?
    rw [ih hil, List.getElem?_set_ne (Ne.symm hik)]

theorem joinGather_getElem?_mem {rows : List (List Nat)}
    {order : List Nat} {i : Nat} (h : i ∈ order) :
    ∀ ans : List (List Nat), i < ans.length →
      (joinGather rows order ans)[i]? = some (rows.getD i []) := by
  induction order with
  | nil => cases h
  | cons k l ih =>
    intro ans hi
    show (joinGather rows l (ans.set k (rows.getD k [])))[i]? = _
    by_cases hil : i ∈ l
    · exact ih hil _ (by simpa using hi)
    · have hik : i = k := by
        rcases List.mem_cons.mp h with h | h
        · exact h
        · exact absurd h hil
      rw [joinGather_getElem?_not_mem hil, hik, List.getElem?_set_self
        (by simpa using hik ▸ hi)]

theorem joinGather_perm (rows ans : List (List Nat)) (order : List Nat)
    (n : Nat) (hrows : rows.length = n) (hans : ans.length = n)
    (hperm : order.Perm (List.range n)) :
    joinGather rows order ans = rows := by
  apply List.ext_getElem?
  intro i
  by_cases hi : i < n
  · have hmem : i ∈ order := hperm.mem_iff.mpr (List.mem_range.mpr hi)
    rw [joinGather_getElem?_mem hmem ans (hans ▸ hi),
      List.getD_eq_getElem?_getD, List.getElem?_eq_getElem (hrows ▸ hi)]
    rfl
  · have hmem : i ∉ order := fun hm =>
      hi (List.mem_range.mp (hperm.mem_iff.mp hm))
    rw [joinGather_getElem?_not_mem hmem, List.getElem?_eq_none (by omega),
      List.getElem?_eq_none (by omega)]

/-- C6: for every compatible non-empty rectangular input, `multiply_parallel`
succeeds, row `i` of its result is exactly the row the worker unit for row
`i` of `a` computes, and writing the worker rows into the zero-initialised
answer buffer in any completion order whatsoever (`joinGather` over any
permutation of the row indices) reproduces that same result: assembly is by
row index, independent of completion order. -/
theorem assembly_order_invariant (a b : List (List Nat)) (r c n : Nat)
    (ha : Rect a r c) (hb : Rect b c n) (hr : 0 < r) (hc : 0 < c) :
    ∃ m, multiply_parallel a b = .ok m ∧ m.length = r ∧
      (∀ i < r, workerRow (a.getD i []) b = .ok (m.getD i [])) ∧
      ∀ order : List Nat, order.Perm (List.range r) →
        joinGather m order (List.replicate r (List.replicate n 0)) = m := by
  refine ⟨mulSpec a b r c n,
    multiply_parallel_eval a b r c n ha.1 ha.2 hb.1 hb.2 hr hc,
    mulSpec_length a b r c n, ?_, ?_⟩
  · intro i hi
    have hrowa : i < a.length := ha.1 ▸ hi
    have haRow : (a.getD i []).length = c := ha.2 _ (getD_mem hrowa [])
    rw [workerRow_eval (a.getD i []) b c n haRow hb.1 hb.2 hc,
      mulSpec_row a b c n hi]
    rfl
  · intro order hperm
    exact joinGather_perm _ _ order r (mulSpec_length a b r c n)
      (List.length_replicate r _) hperm

theorem assembly_order_invariant_witness :
    Rect [[0, 1], [2, 3]] 2 2 ∧ Rect [[0, 2], [4, 6]] 2 2 ∧
    List.Perm [1, 0] (List.range 2) ∧
    (∃ m, multiply_parallel [[0, 1], [2, 3]] [[0, 2], [4, 6]] = .ok m ∧
      m.length = 2 ∧
      (∀ i < 2, workerRow ([[0, 1], [2, 3]].getD i []) [[0, 2], [4, 6]] =
        .ok (m.getD i [])) ∧
      ∀ order : List Nat, order.Perm (List.range 2) →
        joinGather m order (List.replicate 2 (List.replicate 2 0)) = m) :=
  ⟨by decide, by decide, by decide,
    assembly_order_invariant [[0, 1], [2, 3]] [[0, 2], [4, 6]] 2 2 2
      (by decide) (by decide) (by decide) (by decide)⟩

theorem getD_eq_getElem {α : Type} {xs : List α} {i : Nat}
    (h : i < xs.length) (d : α) : xs.getD i d = xs[i] := by
  rw [List.getD_eq_getElem?_getD, List.getElem?_eq_getElem h]
  rfl

theorem identity_rect (n : Nat) : Rect (identityMatrix n) n n := by
  constructor
  · simp [identityMatrix]
  · intro row hrow
    rcases List.mem_map.mp hrow with ⟨i, _, h⟩
    rw [← h]
    simp

theorem identity_entry {n i j : Nat} (hi : i < n) (hj : j < n) :
    ((identityMatrix n).getD i []).getD j 0 = if i = j then 1 else 0 := by
  unfold identityMatrix
  rw [getD_map_range _ hi [], getD_map_range _ hj 0]

theorem entry_lt {a : List (List Nat)} {r c : Nat} (ha : Rect a r c)
    (hent : Entries64 a) {i j : Nat} (hi : i < r) (hj : j < c) :
    entryAt a i j < u64Mod := by
  have hrow : a.getD i [] ∈ a := getD_mem (ha.1 ▸ hi) []
  have hlen : (a.getD i []).length = c := ha.2 _ hrow
  exact hent _ hrow _ (getD_mem (hlen ▸ hj) 0)

theorem sum_mul_delta (g : Nat → Nat) (j : Nat) : ∀ c, j < c →
    ((List.range c).map (fun k => g k * if k = j then 1 else 0)).sum = g j := by
  intro c
  induction c with
  | zero => intro h; cases h
  | succ m ih =>
    intro hj
    rw [List.range_succ, List.map_append, List.sum_append]
    by_cases hjm : j = m
    · subst hjm
      have hzero : ((List.range j).map
          (fun k => g k * if k = j then 1 else 0)).sum = 0 := by
        apply List.sum_eq_zero
        intro x hx
        rcases List.mem_map.mp hx with ⟨k, hk, hkx⟩
        have hkj : k ≠ j := Nat.ne_of_lt (List.mem_range.mp hk)
        rw [← hkx, if_neg hkj, Nat.mul_zero]
      rw [hzero]
      simp
    · rw [ih (by omega), List.map_cons, List.map_nil, List.sum_cons,
        List.sum_nil, if_neg (fun h => hjm h.symm), Nat.mul_zero,
        Nat.add_zero, Nat.add_zero]

theorem sum_delta_mul (g : Nat → Nat) (i : Nat) : ∀ c, i < c →
    ((List.range c).map (fun k => (if i = k then 1 else 0) * g k)).sum = g i := by
  intro c
  induction c with
  | zero => intro h; cases h
  | succ m ih =>
    intro hi
    rw [List.range_succ, List.map_append, List.sum_append]
    by_cases him : i = m
    · subst him
      have hzero : ((List.range i).map
          (fun k => (if i = k then 1 else 0) * g k)).sum = 0 := by
        apply List.sum_eq_zero
        intro x hx
        rcases List.mem_map.mp hx with ⟨k, hk, hkx⟩
        have hik : i ≠ k := (Nat.ne_of_lt (List.mem_range.mp hk)).symm
        rw [← hkx, if_neg hik, Nat.zero_mul]
      rw [hzero]
      simp
    · rw [ih (by omega), List.map_cons, List.map_nil, List.sum_cons,
        List.sum_nil, if_neg him, Nat.zero_mul, Nat.add_zero, Nat.add_zero]

theorem eq_tabulate {a : List (List Nat)} {r c : Nat} (ha : Rect a r c) :
    (List.range r).map (fun i => (List.range c).map fun j => entryAt a i j)
      = a := by
  apply List.ext_getElem
  · simp [ha.1]
  · intro i h1 h2
    rw [List.getElem_map, List.getElem_range]
    have hlen : a[i].length = c := ha.2 _ (List.getElem_mem h2)
    apply List.ext_getElem
    · simp [hlen]
    · intro j hj1 hj2
      rw [List.getElem_map, List.getElem_range]
      unfold entryAt
      rw [getD_eq_getElem h2 [], getD_eq_getElem hj2 0]

theorem mulEntry_id_right (a : List (List Nat)) {r c i j : Nat}
    (ha : Rect a r c) (hent : Entries64 a) (hi : i < r) (hj : j < c) :
    mulEntry a (identityMatrix c) i j c = entryAt a i j := by
  rw [mulEntry_eq_mod]
  unfold specDot
  have hcong : (List.range c).map (fun k =>
        (a.getD i []).getD k 0 * ((identityMatrix c).getD k []).getD j 0)
      = (List.range c).map (fun k =>
        (a.getD i []).getD k 0 * if k = j then 1 else 0) := by
    apply List.map_congr_left
    intro k hk
    rw [identity_entry (List.mem_range.mp hk) hj]
  rw [hcong, sum_mul_delta _ j c hj]
  exact Nat.mod_eq_of_lt (entry_lt ha hent hi hj)

theorem mulEntry_id_left (a : List (List Nat)) {r c i j : Nat}
    (ha : Rect a r c) (hent : Entries64 a) (hi : i < r) (hj : j < c) :
    mulEntry (identityMatrix r) a i j r = entryAt a i j := by
  rw [mulEntry_eq_mod]
  unfold specDot
  have hcong : (List.range r).map (fun k =>
        ((identityMatrix r).getD i []).getD k 0 * (a.getD k []).getD j 0)
      = (List.range r).map (fun k =>
        (if i = k then 1 else 0) * (a.getD k []).getD j 0) := by
    apply List.map_congr_left
    intro k hk
    rw [identity_entry hi (List.mem_range.mp hk)]
  rw [hcong, sum_delta_mul _ i r hi]
  exact Nat.mod_eq_of_lt (entry_lt ha hent hi hj)

theorem mulSpec_id_right (a : List (List Nat)) (r c : Nat)
    (ha : Rect a r c) (hent : Entries64 a) :
    mulSpec a (identityMatrix c) r c c = a := by
  refine Eq.trans ?_ (eq_tabulate ha)
  unfold mulSpec
  apply List.map_congr_left
  intro i hi
  apply List.map_congr_left
  intro j hj
  exact mulEntry_id_right a ha hent (List.mem_range.mp hi)
    (List.mem_range.mp hj)

theorem mulSpec_id_left (a : List (List Nat)) (r c : Nat)
    (ha : Rect a r c) (hent : Entries64 a) :
    mulSpec (identityMatrix r) a r r c = a := by
  refine Eq.trans ?_ (eq_tabulate ha)
  unfold mulSpec
  apply List.map_congr_left
  intro i hi
  apply List.map_congr_left
  intro j hj
  exact mulEntry_id_left a ha hent (List.mem_range.mp hi)
    (List.mem_range.mp hj)

/-- C7: multiplying a non-empty rectangular `r × c` matrix `a` whose entries
are `u64` values by the `c × c` identity on the right — and symmetrically the
`r × r` identity by `a` on the left — returns a matrix equal to `a` (the
wraparound reduction never triggers because every entry is below `2 ^ 64`). -/
theorem identity_mul (a : List (List Nat)) (r c : Nat)
    (ha : Rect a r c) (hent : Entries64 a) (hr : 0 < r) (hc : 0 < c) :
    multiply a (identityMatrix c) = .ok a ∧
    multiply (identityMatrix r) a = .ok a := by
  constructor
  · rw [multiply_eval a (identityMatrix c) r c c ha.1 ha.2
      (identity_rect c).1 (identity_rect c).2 hr hc,
      mulSpec_id_right a r c ha hent]
  · rw [multiply_eval (identityMatrix r) a r r c (identity_rect r).1
      (identity_rect r).2 ha.1 ha.2 hr hr,
      mulSpec_id_left a r c ha hent]

theorem identity_mul_witness :
    Rect [[10, 20, 30], [40, 50, 60]] 2 3 ∧
    Entries64 [[10, 20, 30], [40, 50, 60]] ∧
    multiply [[10, 20, 30], [40, 50, 60]] (identityMatrix 3) =
      .ok [[10, 20, 30], [40, 50, 60]] ∧
    multiply (identityMatrix 2) [[10, 20, 30], [40, 50, 60]] =
      .ok [[10, 20, 30], [40, 50, 60]] :=
  ⟨by decide, by decide,
    identity_mul [[10, 20, 30], [40, 50, 60]] 2 3
      (by decide) (by decide) (by decide) (by decide)⟩

end RustMatrix
